import Mathlib

/-!
Verification of the StrandLabs batch pipeline against its design description.

The Python sources are embedded shallowly:

* `src/RainStream/src/methyl_feature_selection.py` (`analyze_features`):
  the consensus-ranking tail of the function (lines 93-115) is embedded over
  exact rationals.  `MinMaxScaler` scales each column by
  `(x - min) / range`, where sklearn's `_handle_zeros_in_scale` replaces a
  zero range by 1.  `DataFrame.sort_values(..., ascending=False)` is
  implemented by pandas (`nargsort`) by reversing the values and the
  index array, taking the ascending argsort of the reversed values, and
  reversing the resulting indexer again — so tied rows keep their
  original relative order; numpy's default `quicksort` kind degenerates
  to a stable insertion sort below 16 elements, so the embedding is
  reverse, then a stable ascending insertion sort, then reverse.
  The three sklearn estimators (`f_classif`, `RandomForestClassifier`,
  `LogisticRegression`) are floating-point library calls; they appear as
  score-function parameters, while the input validation that sklearn
  performs on the first `fit` call (`check_array` rejects NaN input) is
  embedded explicitly.

* `src/RainStream/src/methyl_wide_formatting.py` (`pivot_to_wide_format`):
  `pivot_table(index='Study_Subject_ID', columns='mdm', values='log_mean',
  aggfunc='first')` groups with sorted keys and sorted columns and takes the
  first value of each (subject, marker) cell; the metadata re-attachment
  takes the first row per subject (`drop_duplicates`) and the final
  `fillna('non-cancer')` is applied to `CANCER_TYPE` and `stage`.

* `src/RainStream/src/methyl_rep_handling.py` (`summarize_replicates`):
  `groupby(['Study_Subject_ID','mdm'])` with sorted group keys;
  `mean`/`std` over the real-valued signal (`std` uses `ddof=1` and yields
  NaN, modelled as `none`, on singleton groups); `'first'` aggregation of a
  metadata column returns its first non-null value.

* `src/LeafHopper/src/precision_profile.py` (`compute_precision_stats`):
  `groupby([donor, mutid, group])` with `mean`/`std`/`count`, `%CV`
  computation, and the row filter `mean > 0 & std > 0 & n_obs > 1`
  (a NaN `std` compares false, matching pandas).

Missing cells (pandas NaN) are `Option` values; real-valued statistics use
`ℝ` so that the sample standard deviation is exact.
-/

namespace StrandLabs

/-! ## Consensus ranker (methyl_feature_selection.py, lines 93-115) -/

/-- Column minimum, as computed by sklearn over a data column
(`0` on the empty column, which sklearn never produces). -/
def colMin : List ℚ → ℚ
  | [] => 0
  | x :: xs => xs.foldl min x

/-- Column maximum, dually. -/
def colMax : List ℚ → ℚ
  | [] => 0
  | x :: xs => xs.foldl max x

/-- Model of `MinMaxScaler.fit_transform` on one column: `(x - min) / (max - min)`,
with a zero range replaced by 1 (sklearn `_handle_zeros_in_scale`), the
documented guard against division by zero on constant columns. -/
def minmaxScale (xs : List ℚ) : List ℚ :=
  let m := colMin xs
  let s := if colMax xs - m = 0 then 1 else colMax xs - m
  xs.map (fun x => (x - m) / s)

/-- Python `s.endswith(t)`: suffix test on the code-point lists (the
built-in positional `String.endsWith` does not reduce; this is the
code-point-level equivalent, which is what Python computes). -/
def strEndsWith (s t : String) : Bool :=
  t.data.isSuffixOf s.data

/-- Scanner for Python `s.replace(pat, '')`, fuel-structured so that
concrete instances evaluate: scan left to right, drop each non-overlapping
occurrence of `pat`. -/
def removeAll (pat : List Char) : ℕ → List Char → List Char
  | _, [] => []
  | 0, l => l
  | fuel + 1, c :: rest =>
      if !pat.isEmpty && pat.isPrefixOf (c :: rest) then
        removeAll pat fuel ((c :: rest).drop pat.length)
      else c :: removeAll pat fuel rest

/-- Python `s.replace(pat, '')`: remove every occurrence of `pat`. -/
def strReplaceAll (s pat : String) : String :=
  ⟨removeAll pat.data s.data.length s.data⟩

/-- Code-point lexicographic comparison of character lists, the order
Python and pandas use on strings (written over `Nat` code points so that
concrete instances evaluate). -/
def charListLE : List Char → List Char → Bool
  | [], _ => true
  | _ :: _, [] => false
  | a :: as, b :: bs =>
      if a.toNat < b.toNat then true
      else if b.toNat < a.toNat then false
      else charListLE as bs

/-- Code-point comparison of strings. -/
def strLE (a b : String) : Bool :=
  charListLE a.data b.data

/-- Lexicographic comparison of string pairs, the order of pandas group
keys for a two-column groupby. -/
def pairLE (a b : String × String) : Bool :=
  if a.1 == b.1 then strLE a.2 b.2 else strLE a.1 b.1

/-- Lexicographic comparison of string triples. -/
def tripleLE (a b : String × String × String) : Bool :=
  if a.1 == b.1 then pairLE a.2 b.2 else strLE a.1 b.1

/-- Stable insertion of `x` after every element `y` with `le y x`. -/
def insertSorted {α : Type} (le : α → α → Bool) (x : α) : List α → List α
  | [] => [x]
  | y :: ys => if le y x then y :: insertSorted le x ys else x :: y :: ys

/-- Stable ascending sort.  It models the sorted group keys and sorted
columns that pandas `groupby`/`pivot_table` produce; only the resulting
order matters, not the algorithm. -/
def sortStable {α : Type} (le : α → α → Bool) (l : List α) : List α :=
  l.foldl (fun acc x => insertSorted le x acc) []

/-- One row of the `results` DataFrame built at lines 93-109, before
sorting.  `idx` is the pandas integer index of the row, i.e. the position
of the marker in the input column order. -/
structure ScoreRow where
  idx : ℕ
  marker : String
  marker_full : String
  f_score : ℚ
  p_value : ℚ
  rf_importance : ℚ
  lr_coefficient : ℚ
  f_score_norm : ℚ
  rf_norm : ℚ
  lr_norm : ℚ
  consensus_score : ℚ
deriving Repr, DecidableEq

/-- A `results` row after `results.insert(0, 'rank', ...)`. -/
structure RankedRow extends ScoreRow where
  rank : ℕ
deriving Repr, DecidableEq

/-- Lines 93-109: assemble the `results` DataFrame from the marker column
names and the four raw score vectors, add the three min-max normalized
columns, and the consensus score (the row mean of the three normalized
columns; with all entries present, pandas `mean(axis=1)` is their sum
divided by 3). -/
def buildResults (markerCols : List String) (f p rf lr : List ℚ) :
    List ScoreRow :=
  let fn := minmaxScale f
  let rfn := minmaxScale rf
  let lrn := minmaxScale lr
  (List.range markerCols.length).map (fun i =>
    { idx := i
      marker := strReplaceAll (markerCols.getD i "") "_log"
      marker_full := markerCols.getD i ""
      f_score := f.getD i 0
      p_value := p.getD i 0
      rf_importance := rf.getD i 0
      lr_coefficient := lr.getD i 0
      f_score_norm := fn.getD i 0
      rf_norm := rfn.getD i 0
      lr_norm := lrn.getD i 0
      consensus_score := (fn.getD i 0 + rfn.getD i 0 + lrn.getD i 0) / 3 })

/-- Insert a row into a list that is sorted ascending by consensus score,
after every row whose score is `≤` the new row's score: the insertion step
of the stable ascending sort underlying numpy's argsort on small arrays. -/
def insertByScore (x : ScoreRow) : List ScoreRow → List ScoreRow
  | [] => [x]
  | y :: ys =>
      if y.consensus_score ≤ x.consensus_score then y :: insertByScore x ys
      else x :: y :: ys

/-- Stable ascending insertion sort by consensus score (numpy argsort,
which is a stable insertion sort for fewer than 16 rows). -/
def sortAscStable (rows : List ScoreRow) : List ScoreRow :=
  rows.foldl (fun acc x => insertByScore x acc) []

/-- Line 112, `results.sort_values('consensus_score', ascending=False)`:
pandas `nargsort` reverses the rows and the index array, takes the
stable ascending argsort of the reversed values, and reverses the
resulting indexer once more — the two reversals cancel on tie groups, so
markers tied on consensus score keep their original relative order. -/
def sortByConsensusDesc (rows : List ScoreRow) : List ScoreRow :=
  (sortAscStable rows.reverse).reverse

/-- The lexicographic strict order (ascending consensus score, ties by
descending original position) in which the stable ascending sort leaves
the pre-reversed rows; reversing once more yields the descending,
tie-order-preserving output of pandas `sort_values`. -/
def LtLex (a b : ScoreRow) : Prop :=
  a.consensus_score < b.consensus_score ∨
    (a.consensus_score = b.consensus_score ∧ b.idx < a.idx)

/-- Attach ranks `k, k+1, ...` to the rows in their current order. -/
def addRankFrom (k : ℕ) : List ScoreRow → List RankedRow
  | [] => []
  | r :: rs => { toScoreRow := r, rank := k } :: addRankFrom (k + 1) rs

/-- Line 115, `results.insert(0, 'rank', range(1, len(results) + 1))`. -/
def addRank (rows : List ScoreRow) : List RankedRow :=
  addRankFrom 1 rows

/-- The ranking tail of `analyze_features` (lines 93-115): build the score
table, sort descending by consensus score, attach ranks starting at 1. -/
def analyzeScores (markerCols : List String) (f p rf lr : List ℚ) :
    List RankedRow :=
  addRank (sortByConsensusDesc (buildResults markerCols f p rf lr))

/-! ## Loading and validation (methyl_feature_selection.py, lines 47-89) -/

/-- A Python exception observable from `analyze_features`.
`missingColumnError` is modelled from the spec: the spec's error taxonomy
names a `MissingColumnError`, which occurs nowhere in the source; it is
included so that statements about it can be expressed. -/
inductive PyError where
  | keyError (col : String)
  | valueError (msg : String)
  | missingColumnError (col : String)
deriving Repr, DecidableEq

/-- A CSV-loaded DataFrame, column oriented: column names in order, each
with its cells, a cell being `none` when the CSV field is missing (NaN). -/
abbrev Frame := List (String × List (Option ℚ))

/-- Column lookup by label, `df[name]`: `none` models a raised `KeyError`. -/
def getCol (df : Frame) (name : String) : Option (List (Option ℚ)) :=
  (df.find? (fun c => c.1 == name)).map (fun c => c.2)

/-- A column with every cell present, else `none`: the finiteness check
sklearn's `check_array` applies to the fitted matrix (NaN is rejected). -/
def allSomeCol : List (Option ℚ) → Option (List ℚ)
  | [] => some []
  | none :: _ => none
  | some x :: rest => (allSomeCol rest).map (fun r => x :: r)

/-- All columns of a matrix fully present, else `none`. -/
def allSome : List (List (Option ℚ)) → Option (List (List ℚ))
  | [] => some []
  | c :: cs =>
      match allSomeCol c, allSome cs with
      | some c₀, some cs₀ => some (c₀ :: cs₀)
      | _, _ => none

/-- Model of `analyze_features`, lines 47-115, with the three sklearn estimators
(`f_classif` F-scores and p-values, random-forest importances, absolute
logistic-regression coefficients) abstracted as score functions of the
clean marker matrix.  Marker columns are those whose name ends in `_log`
(line 50); the label lookup `df['cancer_yn']` raises `KeyError` when the
column is absent (line 53); `SelectKBest(f_classif).fit(X, y)` (line 66)
raises `ValueError` when `X` contains NaN, since imputation is disabled
(lines 56-61 are commented out). -/
def analyzeFeatures (scoreF scoreP scoreRF scoreLR : List (List ℚ) → List ℚ)
    (df : Frame) : Except PyError (List RankedRow) :=
  let markerCols := (df.map (fun c => c.1)).filter (fun n => strEndsWith n "_log")
  let X := markerCols.map (fun n =>
    ((df.find? (fun c => c.1 == n)).map (fun c => c.2)).getD [])
  match getCol df "cancer_yn" with
  | none => .error (.keyError "cancer_yn")
  | some _y =>
      match allSome X with
      | none => .error (.valueError "Input X contains NaN")
      | some Xq =>
          .ok (analyzeScores markerCols
            (scoreF Xq) (scoreP Xq) (scoreRF Xq) (scoreLR Xq))

/-- A trivial stand-in scorer used to instantiate witnesses. -/
def zeroScorer : List (List ℚ) → List ℚ :=
  fun X => X.map (fun _ => 0)

/-- Did the call raise the spec's `MissingColumnError`? -/
def raisedMissingColumn : Except PyError (List RankedRow) → Bool
  | .error (.missingColumnError _) => true
  | _ => false

/-! ## Wide pivot (methyl_wide_formatting.py, `pivot_to_wide_format`) -/

/-- One row of `methyl_data_trim_condensed.csv`: the key pair, the numeric
signal, and the five metadata fields (CSV text, missing as `none`).
`log_sd`/`log_cv` are not read by the pivot and are omitted. -/
structure CondensedRow where
  subject : String
  mdm : String
  log_mean : ℚ
  cancer_type : Option String
  cancer_yn : Option String
  stage : Option String
  age : Option String
  sex : Option String
deriving Repr, DecidableEq

/-- One row of `methyl_data_wide.csv`: the subject, the metadata (with
`CANCER_TYPE` and `stage` filled with `"non-cancer"` when missing, lines
62-63), and the sorted renamed marker columns, a cell being `none` when
the subject has no row for that marker (pandas NaN). -/
structure WideRow where
  subject : String
  cancer_type : String
  cancer_yn : Option String
  stage : String
  age : Option String
  sex : Option String
  markers : List (String × Option ℚ)
deriving Repr, DecidableEq

/-- Model of `pivot_to_wide_format`, lines 38-63.  `pivot_table` groups by subject
(sorted index, one row per distinct subject) with one column per distinct
`mdm` value, cell = `'first'` aggregate of `log_mean`; columns are renamed
`<mdm>_log` and re-sorted (line 59); metadata is re-attached from the first
input row of each subject (`drop_duplicates`, line 53; the `how='right'`
merge keeps exactly the pivoted rows) and the two categorical fields are
filled. -/
def pivotToWideFormat (df : List CondensedRow) : List WideRow :=
  let subjects := sortStable strLE ((df.map (fun r => r.subject)).dedup)
  let markers := sortStable strLE ((df.map (fun r => r.mdm)).dedup)
  subjects.map (fun s =>
    let firstRow := df.find? (fun r => r.subject == s)
    { subject := s
      cancer_type := (firstRow.bind (fun r => r.cancer_type)).getD "non-cancer"
      cancer_yn := firstRow.bind (fun r => r.cancer_yn)
      stage := (firstRow.bind (fun r => r.stage)).getD "non-cancer"
      age := firstRow.bind (fun r => r.age)
      sex := firstRow.bind (fun r => r.sex)
      markers := markers.map (fun m =>
        (m ++ "_log",
          (df.find? (fun r => r.subject == s && r.mdm == m)).map
            (fun r => r.log_mean))) })

/-- Read one marker cell of a wide row by column label. -/
def wideCell (w : WideRow) (c : String) : Option ℚ :=
  (w.markers.find? (fun e => e.1 == c)).bind (fun e => e.2)

/-! ## Replicate condensation (methyl_rep_handling.py, `summarize_replicates`) -/

/-- One row of `methyl_data_trim.csv`: key pair, real-valued signal `log`,
and metadata (CSV text, missing as `none`). -/
structure MergedRow where
  subject : String
  study : Option String
  mdm : String
  log : ℝ
  cancer_type : Option String
  cancer_yn : Option String
  stage : Option String
  age : Option String
  sex : Option String

/-- Arithmetic mean of a column, `pandas mean`. -/
noncomputable def sampleMean (xs : List ℝ) : ℝ :=
  xs.sum / xs.length

/-- Sample standard deviation with `ddof=1`, `pandas std` on two or more
observations. -/
noncomputable def sampleStd (xs : List ℝ) : ℝ :=
  Real.sqrt ((xs.map (fun x => (x - sampleMean xs) ^ 2)).sum /
    ((xs.length : ℝ) - 1))

/-- One row of `methyl_data_trim_condensed.csv` as written by
`summarize_replicates`: `log_sd` and `log_cv` are `none` when pandas
produces NaN (a single observation, `ddof=1`). -/
structure CondensedOut where
  subject : String
  mdm : String
  log_mean : ℝ
  log_sd : Option ℝ
  cancer_type : Option String
  cancer_yn : Option String
  stage : Option String
  age : Option String
  sex : Option String
  log_cv : Option ℝ

/-- One output row of `summarize_replicates` for the group with key `k`:
the `agg` dictionary of lines 37-41 (mean, `ddof=1` standard deviation of
`log` — NaN, i.e. `none`, on singleton groups — and the first non-null
value of each metadata column) plus the `log_cv` column of line 44 (NaN
propagates from `log_sd`). -/
noncomputable def condenseGroup (df : List MergedRow) (k : String × String) :
    CondensedOut :=
  let g := df.filter (fun r => r.subject == k.1 && r.mdm == k.2)
  let logs := g.map (fun r => r.log)
  let sd := if 2 ≤ g.length then some (sampleStd logs) else none
  { subject := k.1
    mdm := k.2
    log_mean := sampleMean logs
    log_sd := sd
    cancer_type := g.findSome? (fun r => r.cancer_type)
    cancer_yn := g.findSome? (fun r => r.cancer_yn)
    stage := g.findSome? (fun r => r.stage)
    age := g.findSome? (fun r => r.age)
    sex := g.findSome? (fun r => r.sex)
    log_cv := sd.map (fun s => s / sampleMean logs * 100) }

/-- Model of `summarize_replicates`, lines 36-44: group by the (subject,
marker) pair (sorted keys, one output row per distinct pair) and condense
each group. -/
noncomputable def summarizeReplicates (df : List MergedRow) : List CondensedOut :=
  (sortStable pairLE ((df.map (fun r => (r.subject, r.mdm))).dedup)).map
    (condenseGroup df)

/-! ## Precision statistics (precision_profile.py, `compute_precision_stats`) -/

/-- One input row of the precision-profile CSV after the donor and
non-null-variant filters of `main`: the three grouping labels and the
numeric SDMC signal. -/
structure AssayRow where
  donor : String
  mutid : String
  group : String
  sdmc : ℝ

/-- One row of the `stats` DataFrame of `compute_precision_stats`. -/
structure PrecRow where
  donor : String
  mutid : String
  group : String
  mean_value : ℝ
  std_value : Option ℝ
  n_obs : ℕ
  cv_percent : Option ℝ

/-- One `stats` row of `compute_precision_stats` for the group with key
`k`: mean, `ddof=1` standard deviation (NaN, i.e. `none`, on singleton
groups), observation count, and `cv_percent = std / mean * 100`. -/
noncomputable def precisionGroup (df : List AssayRow)
    (k : String × String × String) : PrecRow :=
  let g := df.filter (fun r =>
    r.donor == k.1 && r.mutid == k.2.1 && r.group == k.2.2)
  let xs := g.map (fun r => r.sdmc)
  let sd := if 2 ≤ g.length then some (sampleStd xs) else none
  { donor := k.1
    mutid := k.2.1
    group := k.2.2
    mean_value := sampleMean xs
    std_value := sd
    n_obs := g.length
    cv_percent := sd.map (fun s => s / sampleMean xs * 100) }

/-- Model of `compute_precision_stats`, lines 94-106: group by (donor,
variant, group level) with sorted keys, aggregate each group, then keep
only rows with `mean_value > 0`, `std_value > 0` (false on NaN, as in
pandas) and `n_obs > 1`. -/
noncomputable def computePrecisionStats (df : List AssayRow) : List PrecRow :=
  ((sortStable tripleLE
      ((df.map (fun r => (r.donor, r.mutid, r.group))).dedup)).map
    (precisionGroup df)).filter (fun r => decide (0 < r.mean_value) &&
      ((match r.std_value with
        | some s => decide (0 < s)
        | none => false) &&
        decide (1 < r.n_obs)))

/-! ## Concrete inputs used to instantiate the theorems -/

/-- Two marker columns. -/
def colsW : List String := ["a_log", "b_log"]

/-- Ranked output row of the two-marker run with raw scores
`f = rf = lr = [1, 2]`: marker `b` normalizes to 1 on every method. -/
def rowTopW : RankedRow :=
  { idx := 1, marker := "b", marker_full := "b_log", f_score := 2, p_value := 0
    rf_importance := 2, lr_coefficient := 2, f_score_norm := 1, rf_norm := 1
    lr_norm := 1, consensus_score := 1, rank := 1 }

/-- Ranked output row for marker `a` of the same run. -/
def rowBotW : RankedRow :=
  { idx := 0, marker := "a", marker_full := "a_log", f_score := 1, p_value := 0
    rf_importance := 1, lr_coefficient := 1, f_score_norm := 0, rf_norm := 0
    lr_norm := 0, consensus_score := 0, rank := 2 }

/-- Ranked output row for marker `a` when every raw vector is `[1, 1]`:
both markers tie at consensus 0 and `a`, first in input order, keeps
rank 1. -/
def rowTieA : RankedRow :=
  { idx := 0, marker := "a", marker_full := "a_log", f_score := 1, p_value := 1
    rf_importance := 1, lr_coefficient := 1, f_score_norm := 0, rf_norm := 0
    lr_norm := 0, consensus_score := 0, rank := 1 }

/-- Ranked output row for marker `b` of the tied run: rank 2, after `a`
as in the input order. -/
def rowTieB : RankedRow :=
  { idx := 1, marker := "b", marker_full := "b_log", f_score := 1, p_value := 1
    rf_importance := 1, lr_coefficient := 1, f_score_norm := 0, rf_norm := 0
    lr_norm := 0, consensus_score := 0, rank := 2 }

/-- A frame with marker columns but no `cancer_yn` column. -/
def dfNoLabel : Frame :=
  [("a_log", [some 1]), ("b_log", [some 2])]

/-- A frame with a label column, one clean marker column and one marker
column whose cells are all missing. -/
def dfAllNull : Frame :=
  [("cancer_yn", [some 0, some 1]),
   ("a_log", [some 1, some 2]),
   ("b_log", [none, none])]

/-- Condensed long data for one patient with two markers. -/
def dfPivot : List CondensedRow :=
  [{ subject := "P1", mdm := "M1", log_mean := 3, cancer_type := some "lung"
     cancer_yn := some "1", stage := some "II", age := some "63", sex := some "F" },
   { subject := "P1", mdm := "M2", log_mean := 5, cancer_type := some "lung"
     cancer_yn := some "1", stage := some "II", age := some "63", sex := some "F" }]

/-- The first input row of `dfPivot`, the one the (P1, M1) cell reads. -/
def rowPivotM1 : CondensedRow :=
  { subject := "P1", mdm := "M1", log_mean := 3, cancer_type := some "lung"
    cancer_yn := some "1", stage := some "II", age := some "63", sex := some "F" }

/-- The wide row that `pivot_to_wide_format` produces for `dfPivot`. -/
def widePivot : WideRow :=
  { subject := "P1", cancer_type := "lung", cancer_yn := some "1", stage := "II"
    age := some "63", sex := some "F"
    markers := [("M1_log", some 3), ("M2_log", some 5)] }

/-- One merged long row: a single replicate of marker `M1` for `P1`. -/
def dfReps : List MergedRow :=
  [{ subject := "P1", study := some "S1", mdm := "M1", log := 2
     cancer_type := some "lung", cancer_yn := some "1", stage := some "II"
     age := some "63", sex := some "F" }]

/-- The condensed row that `summarize_replicates` produces for `dfReps`:
a singleton group, so `log_sd` and `log_cv` are NaN (`none`). -/
noncomputable def rowReps : CondensedOut :=
  { subject := "P1", mdm := "M1", log_mean := sampleMean [(2 : ℝ)], log_sd := none
    cancer_type := some "lung", cancer_yn := some "1", stage := some "II"
    age := some "63", sex := some "F", log_cv := none }

/-- Three SDMC observations of one donor-variant-group combination. -/
def dfAssay : List AssayRow :=
  [{ donor := "D1", mutid := "V1", group := "G1", sdmc := 2 },
   { donor := "D1", mutid := "V1", group := "G1", sdmc := 4 },
   { donor := "D1", mutid := "V1", group := "G1", sdmc := 6 }]

/-- The statistics row that `compute_precision_stats` keeps for `dfAssay`:
mean 4, standard deviation 2, three observations. -/
noncomputable def rowAssay : PrecRow :=
  { donor := "D1", mutid := "V1", group := "G1"
    mean_value := sampleMean [(2 : ℝ), 4, 6]
    std_value := some (sampleStd [(2 : ℝ), 4, 6])
    n_obs := 3
    cv_percent := some (sampleStd [(2 : ℝ), 4, 6] / sampleMean [(2 : ℝ), 4, 6] * 100) }

/-! ## Lemmas: column minima and maxima -/

theorem foldl_max_le_init (l : List ℚ) (b : ℚ) : b ≤ l.foldl max b := by
  induction l generalizing b with
  | nil => exact le_refl b
  | cons x t ih => exact le_trans (le_max_left b x) (ih (max b x))

theorem le_foldl_max (l : List ℚ) (b x : ℚ) (hx : x ∈ l) : x ≤ l.foldl max b := by
  induction l generalizing b with
  | nil => cases hx
  | cons y t ih =>
    rcases List.mem_cons.mp hx with h | h
    · subst h; exact le_trans (le_max_right b x) (foldl_max_le_init t _)
    · exact ih _ h

theorem foldl_max_mem (l : List ℚ) (b : ℚ) :
    l.foldl max b = b ∨ l.foldl max b ∈ l := by
  induction l generalizing b with
  | nil => exact Or.inl rfl
  | cons x t ih =>
    rcases ih (max b x) with h | h
    · rcases max_choice b x with he | he
      · exact Or.inl (by rw [List.foldl_cons, h, he])
      · exact Or.inr (by rw [List.foldl_cons, h, he]; exact List.mem_cons_self x t)
    · exact Or.inr (List.mem_cons_of_mem x h)

theorem foldl_min_init_le (l : List ℚ) (b : ℚ) : l.foldl min b ≤ b := by
  induction l generalizing b with
  | nil => exact le_refl b
  | cons x t ih => exact le_trans (ih (min b x)) (min_le_left b x)

theorem foldl_min_le (l : List ℚ) (b x : ℚ) (hx : x ∈ l) : l.foldl min b ≤ x := by
  induction l generalizing b with
  | nil => cases hx
  | cons y t ih =>
    rcases List.mem_cons.mp hx with h | h
    · subst h; exact le_trans (foldl_min_init_le t _) (min_le_right b x)
    · exact ih _ h

theorem foldl_min_mem (l : List ℚ) (b : ℚ) :
    l.foldl min b = b ∨ l.foldl min b ∈ l := by
  induction l generalizing b with
  | nil => exact Or.inl rfl
  | cons x t ih =>
    rcases ih (min b x) with h | h
    · rcases min_choice b x with he | he
      · exact Or.inl (by rw [List.foldl_cons, h, he])
      · exact Or.inr (by rw [List.foldl_cons, h, he]; exact List.mem_cons_self x t)
    · exact Or.inr (List.mem_cons_of_mem x h)

theorem le_colMax (l : List ℚ) (x : ℚ) (hx : x ∈ l) : x ≤ colMax l := by
  cases l with
  | nil => cases hx
  | cons y t =>
    rcases List.mem_cons.mp hx with h | h
    · subst h; exact foldl_max_le_init t x
    · exact le_foldl_max t y x h

theorem colMin_le (l : List ℚ) (x : ℚ) (hx : x ∈ l) : colMin l ≤ x := by
  cases l with
  | nil => cases hx
  | cons y t =>
    rcases List.mem_cons.mp hx with h | h
    · subst h; exact foldl_min_init_le t x
    · exact foldl_min_le t y x h

theorem colMax_mem (l : List ℚ) (h : l ≠ []) : colMax l ∈ l := by
  cases l with
  | nil => exact absurd rfl h
  | cons y t =>
    rcases foldl_max_mem t y with h1 | h1
    · show t.foldl max y ∈ y :: t
      rw [h1]; exact List.mem_cons_self y t
    · exact List.mem_cons_of_mem y h1

theorem colMin_mem (l : List ℚ) (h : l ≠ []) : colMin l ∈ l := by
  cases l with
  | nil => exact absurd rfl h
  | cons y t =>
    rcases foldl_min_mem t y with h1 | h1
    · show t.foldl min y ∈ y :: t
      rw [h1]; exact List.mem_cons_self y t
    · exact List.mem_cons_of_mem y h1

theorem foldl_max_affine (s m : ℚ) (hs : 0 < s) (l : List ℚ) (b : ℚ) :
    (l.map (fun x => (x - m) / s)).foldl max ((b - m) / s) =
      (l.foldl max b - m) / s := by
  induction l generalizing b with
  | nil => rfl
  | cons x t ih =>
    have h : max ((b - m) / s) ((x - m) / s) = (max b x - m) / s := by
      rw [max_div_div_right (le_of_lt hs), max_sub_sub_right]
    rw [List.map_cons, List.foldl_cons, List.foldl_cons, h, ih]

theorem foldl_min_affine (s m : ℚ) (hs : 0 < s) (l : List ℚ) (b : ℚ) :
    (l.map (fun x => (x - m) / s)).foldl min ((b - m) / s) =
      (l.foldl min b - m) / s := by
  induction l generalizing b with
  | nil => rfl
  | cons x t ih =>
    have h : min ((b - m) / s) ((x - m) / s) = (min b x - m) / s := by
      rw [min_div_div_right (le_of_lt hs), min_sub_sub_right]
    rw [List.map_cons, List.foldl_cons, List.foldl_cons, h, ih]

theorem colMax_map_affine (s m : ℚ) (hs : 0 < s) (l : List ℚ) (hl : l ≠ []) :
    colMax (l.map (fun x => (x - m) / s)) = (colMax l - m) / s := by
  cases l with
  | nil => exact absurd rfl hl
  | cons x t => exact foldl_max_affine s m hs t x

theorem colMin_map_affine (s m : ℚ) (hs : 0 < s) (l : List ℚ) (hl : l ≠ []) :
    colMin (l.map (fun x => (x - m) / s)) = (colMin l - m) / s := by
  cases l with
  | nil => exact absurd rfl hl
  | cons x t => exact foldl_min_affine s m hs t x

/-! ## Lemmas: min-max scaling -/

theorem minmaxScale_length (xs : List ℚ) :
    (minmaxScale xs).length = xs.length := by
  simp [minmaxScale]

theorem minmaxScale_const (xs : List ℚ)
    (h : ∀ x ∈ xs, ∀ y ∈ xs, x = y) : ∀ z ∈ minmaxScale xs, z = 0 := by
  intro z hz
  simp only [minmaxScale, List.mem_map] at hz
  obtain ⟨x, hx, rfl⟩ := hz
  have hmem : colMin xs ∈ xs := colMin_mem xs (List.ne_nil_of_mem hx)
  rw [h x hx _ hmem, sub_self, zero_div]

theorem colMin_lt_colMax (xs : List ℚ)
    (h : ∃ x ∈ xs, ∃ y ∈ xs, x ≠ y) : colMin xs < colMax xs := by
  obtain ⟨x, hx, y, hy, hxy⟩ := h
  rcases lt_or_le (colMin xs) (colMax xs) with h1 | h1
  · exact h1
  · exact absurd
      ((le_antisymm ((le_colMax xs x hx).trans h1) (colMin_le xs x hx)).trans
        (le_antisymm ((le_colMax xs y hy).trans h1) (colMin_le xs y hy)).symm)
      hxy

theorem colMax_minmaxScale (xs : List ℚ)
    (h : ∃ x ∈ xs, ∃ y ∈ xs, x ≠ y) : colMax (minmaxScale xs) = 1 := by
  have hne : xs ≠ [] := by
    obtain ⟨x, hx, -⟩ := h
    exact List.ne_nil_of_mem hx
  have hs : (0 : ℚ) < colMax xs - colMin xs := sub_pos.mpr (colMin_lt_colMax xs h)
  have hif : (if colMax xs - colMin xs = 0 then 1 else colMax xs - colMin xs) =
      colMax xs - colMin xs := if_neg (ne_of_gt hs)
  simp only [minmaxScale, hif]
  rw [colMax_map_affine _ _ hs xs hne]
  exact div_self (ne_of_gt hs)

theorem colMin_minmaxScale (xs : List ℚ)
    (h : ∃ x ∈ xs, ∃ y ∈ xs, x ≠ y) : colMin (minmaxScale xs) = 0 := by
  have hne : xs ≠ [] := by
    obtain ⟨x, hx, -⟩ := h
    exact List.ne_nil_of_mem hx
  have hs : (0 : ℚ) < colMax xs - colMin xs := sub_pos.mpr (colMin_lt_colMax xs h)
  have hif : (if colMax xs - colMin xs = 0 then 1 else colMax xs - colMin xs) =
      colMax xs - colMin xs := if_neg (ne_of_gt hs)
  simp only [minmaxScale, hif]
  rw [colMin_map_affine _ _ hs xs hne, sub_self, zero_div]

theorem minmaxScale_bounds (xs : List ℚ) :
    ∀ z ∈ minmaxScale xs, 0 ≤ z ∧ z ≤ 1 := by
  intro z hz
  simp only [minmaxScale, List.mem_map] at hz
  obtain ⟨x, hx, rfl⟩ := hz
  have h1 : colMin xs ≤ x := colMin_le xs x hx
  have h2 : x ≤ colMax xs := le_colMax xs x hx
  by_cases h0 : colMax xs - colMin xs = 0
  · have hx0 : x - colMin xs = 0 := by linarith
    rw [if_pos h0, hx0, zero_div]
    norm_num
  · have hs : (0 : ℚ) < colMax xs - colMin xs :=
      lt_of_le_of_ne (by linarith) (Ne.symm h0)
    rw [if_neg h0]
    constructor
    · exact div_nonneg (by linarith) (le_of_lt hs)
    · rw [div_le_one hs]; linarith

/-! ## Lemmas: the results table and its sort -/

theorem range_map_getD (l : List ℚ) (d : ℚ) :
    (List.range l.length).map (fun i => l.getD i d) = l := by
  induction l with
  | nil => rfl
  | cons x t ih =>
    rw [List.length_cons, List.range_succ_eq_map, List.map_cons]
    have h : ((List.range t.length).map Nat.succ).map (fun i => (x :: t).getD i d)
        = (List.range t.length).map (fun i => t.getD i d) := by
      rw [List.map_map]
      rfl
    rw [h, ih, List.getD_cons_zero]

theorem buildResults_length (cols : List String) (f p rf lr : List ℚ) :
    (buildResults cols f p rf lr).length = cols.length := by
  simp [buildResults]

theorem buildResults_map_f_norm (cols : List String) (f p rf lr : List ℚ)
    (hf : f.length = cols.length) :
    (buildResults cols f p rf lr).map (fun r => r.f_score_norm) =
      minmaxScale f := by
  have h : (minmaxScale f).length = cols.length := by
    rw [minmaxScale_length, hf]
  simp only [buildResults, List.map_map]
  rw [← h]
  exact range_map_getD (minmaxScale f) 0

theorem buildResults_map_rf_norm (cols : List String) (f p rf lr : List ℚ)
    (hrf : rf.length = cols.length) :
    (buildResults cols f p rf lr).map (fun r => r.rf_norm) =
      minmaxScale rf := by
  have h : (minmaxScale rf).length = cols.length := by
    rw [minmaxScale_length, hrf]
  simp only [buildResults, List.map_map]
  rw [← h]
  exact range_map_getD (minmaxScale rf) 0

theorem buildResults_map_lr_norm (cols : List String) (f p rf lr : List ℚ)
    (hlr : lr.length = cols.length) :
    (buildResults cols f p rf lr).map (fun r => r.lr_norm) =
      minmaxScale lr := by
  have h : (minmaxScale lr).length = cols.length := by
    rw [minmaxScale_length, hlr]
  simp only [buildResults, List.map_map]
  rw [← h]
  exact range_map_getD (minmaxScale lr) 0

theorem mem_insertByScore (z x : ScoreRow) (l : List ScoreRow) :
    z ∈ insertByScore x l ↔ z = x ∨ z ∈ l := by
  induction l with
  | nil => simp [insertByScore]
  | cons y ys ih =>
    simp only [insertByScore]
    by_cases h : y.consensus_score ≤ x.consensus_score
    · rw [if_pos h]
      simp only [List.mem_cons, ih]
      tauto
    · rw [if_neg h]
      simp only [List.mem_cons]

theorem mem_foldl_insert (z : ScoreRow) (xs : List ScoreRow) :
    ∀ acc, z ∈ xs.foldl (fun a x => insertByScore x a) acc ↔
      z ∈ acc ∨ z ∈ xs := by
  induction xs with
  | nil => intro acc; simp
  | cons x t ih =>
    intro acc
    rw [List.foldl_cons, ih, mem_insertByScore]
    simp only [List.mem_cons]
    tauto

theorem mem_sortAscStable (z : ScoreRow) (l : List ScoreRow) :
    z ∈ sortAscStable l ↔ z ∈ l := by
  rw [sortAscStable, mem_foldl_insert]
  simp

theorem mem_sortByConsensusDesc (z : ScoreRow) (l : List ScoreRow) :
    z ∈ sortByConsensusDesc l ↔ z ∈ l := by
  rw [sortByConsensusDesc, List.mem_reverse, mem_sortAscStable,
    List.mem_reverse]

theorem length_insertByScore (x : ScoreRow) (l : List ScoreRow) :
    (insertByScore x l).length = l.length + 1 := by
  induction l with
  | nil => rfl
  | cons y ys ih =>
    simp only [insertByScore]
    by_cases h : y.consensus_score ≤ x.consensus_score
    · rw [if_pos h]
      simp [ih]
    · rw [if_neg h]
      simp

theorem length_foldl_insert (xs : List ScoreRow) :
    ∀ acc, (xs.foldl (fun a x => insertByScore x a) acc).length =
      acc.length + xs.length := by
  induction xs with
  | nil => intro acc; simp
  | cons x t ih =>
    intro acc
    rw [List.foldl_cons, ih, length_insertByScore, List.length_cons]
    omega

theorem length_sortAscStable (l : List ScoreRow) :
    (sortAscStable l).length = l.length := by
  rw [sortAscStable, length_foldl_insert]
  simp

theorem length_sortByConsensusDesc (l : List ScoreRow) :
    (sortByConsensusDesc l).length = l.length := by
  rw [sortByConsensusDesc, List.length_reverse, length_sortAscStable,
    List.length_reverse]

theorem pairwise_insertByScore (x : ScoreRow) (l : List ScoreRow)
    (hl : List.Pairwise LtLex l) (hidx : ∀ a ∈ l, x.idx < a.idx) :
    List.Pairwise LtLex (insertByScore x l) := by
  induction l with
  | nil => simp [insertByScore]
  | cons y ys ih =>
    rw [List.pairwise_cons] at hl
    obtain ⟨hy, hys⟩ := hl
    simp only [insertByScore]
    by_cases h : y.consensus_score ≤ x.consensus_score
    · rw [if_pos h, List.pairwise_cons]
      refine ⟨?_, ih hys (fun a ha => hidx a (List.mem_cons_of_mem y ha))⟩
      intro z hz
      rcases (mem_insertByScore z x ys).mp hz with rfl | hz2
      · rcases lt_or_eq_of_le h with h1 | h1
        · exact Or.inl h1
        · exact Or.inr ⟨h1, hidx y (List.mem_cons_self y ys)⟩
      · exact hy z hz2
    · rw [if_neg h, List.pairwise_cons]
      push_neg at h
      refine ⟨?_, List.pairwise_cons.mpr ⟨hy, hys⟩⟩
      intro z hz
      rcases List.mem_cons.mp hz with rfl | hz2
      · exact Or.inl h
      · left
        rcases hy z hz2 with h2 | ⟨h2, -⟩
        · exact lt_trans h h2
        · exact h2 ▸ h

theorem pairwise_foldl_insert (xs : List ScoreRow) :
    ∀ acc, List.Pairwise LtLex acc →
      List.Pairwise (fun a b => b.idx < a.idx) xs →
      (∀ a ∈ acc, ∀ b ∈ xs, b.idx < a.idx) →
      List.Pairwise LtLex (xs.foldl (fun a x => insertByScore x a) acc) := by
  induction xs with
  | nil =>
    intro acc h _ _
    simpa using h
  | cons x t ih =>
    intro acc hacc hxs hcross
    rw [List.pairwise_cons] at hxs
    rw [List.foldl_cons]
    apply ih
    · exact pairwise_insertByScore x acc hacc
        (fun a ha => hcross a ha x (List.mem_cons_self x t))
    · exact hxs.2
    · intro a ha b hb
      rcases (mem_insertByScore a x acc).mp ha with rfl | ha2
      · exact hxs.1 b hb
      · exact hcross a ha2 b (List.mem_cons_of_mem x hb)

theorem pairwise_sortAscStable (l : List ScoreRow)
    (h : List.Pairwise (fun a b => b.idx < a.idx) l) :
    List.Pairwise LtLex (sortAscStable l) :=
  pairwise_foldl_insert l [] List.Pairwise.nil h (by simp)

theorem pairwise_sortByConsensusDesc (l : List ScoreRow)
    (h : List.Pairwise (fun a b => a.idx < b.idx) l) :
    List.Pairwise (fun a b => LtLex b a) (sortByConsensusDesc l) := by
  rw [sortByConsensusDesc, List.pairwise_reverse]
  apply pairwise_sortAscStable
  rw [List.pairwise_reverse]
  exact h

theorem pairwise_idx_buildResults (cols : List String) (f p rf lr : List ℚ) :
    List.Pairwise (fun a b => a.idx < b.idx) (buildResults cols f p rf lr) := by
  simp only [buildResults]
  rw [List.pairwise_map]
  exact List.pairwise_lt_range cols.length

theorem mem_addRankFrom (x : RankedRow) (l : List ScoreRow) :
    ∀ k, x ∈ addRankFrom k l ↔
      ∃ i, ∃ h : i < l.length, x.toScoreRow = l.get ⟨i, h⟩ ∧ x.rank = k + i := by
  induction l with
  | nil =>
    intro k
    simp [addRankFrom]
  | cons r rs ih =>
    intro k
    simp only [addRankFrom, List.mem_cons, ih (k + 1)]
    constructor
    · rintro (rfl | ⟨i, h, h1, h2⟩)
      · exact ⟨0, Nat.succ_pos _, rfl, by simp⟩
      · exact ⟨i + 1, Nat.succ_lt_succ h, h1, by omega⟩
    · rintro ⟨i, h, h1, h2⟩
      cases i with
      | zero =>
        left
        obtain ⟨ts, rk⟩ := x
        simp only [List.get_cons_zero] at h1
        simp only at h1 h2
        subst h1
        simp only [Nat.add_zero] at h2
        subst h2
        rfl
      | succ j =>
        right
        exact ⟨j, Nat.lt_of_succ_lt_succ h, h1, by omega⟩

theorem map_rank_addRankFrom (l : List ScoreRow) :
    ∀ k, (addRankFrom k l).map (fun r => r.rank) = List.range' k l.length := by
  induction l with
  | nil => intro k; rfl
  | cons r rs ih =>
    intro k
    rw [List.length_cons, List.range'_succ]
    simp only [addRankFrom, List.map_cons, ih (k + 1)]

theorem length_addRankFrom (l : List ScoreRow) :
    ∀ k, (addRankFrom k l).length = l.length := by
  induction l with
  | nil => intro k; rfl
  | cons r rs ih =>
    intro k
    simp [addRankFrom, ih]

/-! ## C1-C4: the consensus ranker -/

/-- C1: in the consensus ranker, each of the three raw score vectors
(f_score, rf_importance, lr_coefficient) is min-max normalized
independently to [0,1]: the normalized columns of the results table are
exactly the min-max images of the raw vectors, every normalized value lies
in [0,1], a constant raw vector normalizes to all zeros, and a
non-constant raw vector attains normalized maximum 1 and minimum 0. -/
theorem minmax_normalized_columns (cols : List String) (f p rf lr : List ℚ)
    (hf : f.length = cols.length) (hrf : rf.length = cols.length)
    (hlr : lr.length = cols.length) :
    ((buildResults cols f p rf lr).map (fun r => r.f_score_norm) = minmaxScale f ∧
      (buildResults cols f p rf lr).map (fun r => r.rf_norm) = minmaxScale rf ∧
      (buildResults cols f p rf lr).map (fun r => r.lr_norm) = minmaxScale lr) ∧
    ∀ xs ∈ [f, rf, lr],
      (∀ z ∈ minmaxScale xs, 0 ≤ z ∧ z ≤ 1) ∧
      ((∀ x ∈ xs, ∀ y ∈ xs, x = y) → ∀ z ∈ minmaxScale xs, z = 0) ∧
      ((∃ x ∈ xs, ∃ y ∈ xs, x ≠ y) →
        colMax (minmaxScale xs) = 1 ∧ colMin (minmaxScale xs) = 0) := by
  refine ⟨⟨buildResults_map_f_norm cols f p rf lr hf,
    buildResults_map_rf_norm cols f p rf lr hrf,
    buildResults_map_lr_norm cols f p rf lr hlr⟩, ?_⟩
  intro xs _
  exact ⟨minmaxScale_bounds xs, minmaxScale_const xs,
    fun h => ⟨colMax_minmaxScale xs h, colMin_minmaxScale xs h⟩⟩

/-- Witness for `minmax_normalized_columns` at a concrete two-marker run
with a non-constant f vector, a constant rf vector and a non-constant lr
vector. -/
theorem minmax_normalized_columns_witness :
    (([1, 2] : List ℚ).length = colsW.length ∧
      ([1, 1] : List ℚ).length = colsW.length ∧
      ([3, 7] : List ℚ).length = colsW.length) ∧
    (((buildResults colsW [1, 2] [0, 0] [1, 1] [3, 7]).map
        (fun r => r.f_score_norm) = minmaxScale [1, 2] ∧
      (buildResults colsW [1, 2] [0, 0] [1, 1] [3, 7]).map
        (fun r => r.rf_norm) = minmaxScale [1, 1] ∧
      (buildResults colsW [1, 2] [0, 0] [1, 1] [3, 7]).map
        (fun r => r.lr_norm) = minmaxScale [3, 7]) ∧
    ∀ xs ∈ [([1, 2] : List ℚ), [1, 1], [3, 7]],
      (∀ z ∈ minmaxScale xs, 0 ≤ z ∧ z ≤ 1) ∧
      ((∀ x ∈ xs, ∀ y ∈ xs, x = y) → ∀ z ∈ minmaxScale xs, z = 0) ∧
      ((∃ x ∈ xs, ∃ y ∈ xs, x ≠ y) →
        colMax (minmaxScale xs) = 1 ∧ colMin (minmaxScale xs) = 0)) :=
  ⟨⟨by decide, by decide, by decide⟩,
    minmax_normalized_columns colsW [1, 2] [0, 0] [1, 1] [3, 7]
      (by decide) (by decide) (by decide)⟩

/-- Helper evaluation: the ranked output of the concrete two-marker run
with raw scores `f = rf = lr = [1, 2]`. -/
theorem analyzeScores_eval_two_marker :
    analyzeScores colsW [1, 2] [0, 0] [1, 2] [1, 2] = [rowTopW, rowBotW] := by
  norm_num [analyzeScores, buildResults, minmaxScale, colMin, colMax,
    sortByConsensusDesc, sortAscStable, insertByScore, addRank, addRankFrom,
    colsW, rowTopW, rowBotW, List.range_succ, strReplaceAll, removeAll]
  decide

/-- Helper evaluation: the ranked output of the tied two-marker run
keeps the input order a, b. -/
theorem analyzeScores_eval_tie :
    analyzeScores colsW [1, 1] [1, 1] [1, 1] [1, 1] = [rowTieA, rowTieB] := by
  norm_num [analyzeScores, buildResults, minmaxScale, colMin, colMax,
    sortByConsensusDesc, sortAscStable, insertByScore, addRank, addRankFrom,
    colsW, rowTieA, rowTieB, List.range_succ, strReplaceAll, removeAll]
  decide

/-- C2: every row of the ranked feature-selection output carries a
consensus score equal to the unweighted arithmetic mean of its three
normalized scores. -/
theorem consensus_score_is_mean (cols : List String) (f p rf lr : List ℚ) :
    ∀ r ∈ analyzeScores cols f p rf lr,
      r.consensus_score = (r.f_score_norm + r.rf_norm + r.lr_norm) / 3 := by
  intro r hr
  obtain ⟨i, hi, h1, -⟩ := (mem_addRankFrom r _ 1).mp hr
  have hmem : r.toScoreRow ∈ sortByConsensusDesc (buildResults cols f p rf lr) := by
    rw [h1]
    exact List.get_mem _ _ _
  rw [mem_sortByConsensusDesc] at hmem
  simp only [buildResults, List.mem_map] at hmem
  obtain ⟨j, hj, heq⟩ := hmem
  show r.toScoreRow.consensus_score =
    (r.toScoreRow.f_score_norm + r.toScoreRow.rf_norm + r.toScoreRow.lr_norm) / 3
  rw [← heq]

/-- Witness for `consensus_score_is_mean` at the top row of a concrete
two-marker run. -/
theorem consensus_score_is_mean_witness :
    rowTopW ∈ analyzeScores colsW [1, 2] [0, 0] [1, 2] [1, 2] ∧
    rowTopW.consensus_score =
      (rowTopW.f_score_norm + rowTopW.rf_norm + rowTopW.lr_norm) / 3 :=
  ⟨by rw [analyzeScores_eval_two_marker]; exact List.mem_cons_self _ _,
    consensus_score_is_mean colsW [1, 2] [0, 0] [1, 2] [1, 2] rowTopW
      (by rw [analyzeScores_eval_two_marker]; exact List.mem_cons_self _ _)⟩

/-- C3: the ranked output has one row per marker, its rank column is
exactly 1, 2, ..., n in output order, the rank-1 row has the greatest
consensus score, and a smaller rank always means a greater-or-equal
consensus score. -/
theorem consensus_ranking_is_total_order (cols : List String) (f p rf lr : List ℚ) :
    (analyzeScores cols f p rf lr).length = cols.length ∧
    (analyzeScores cols f p rf lr).map (fun r => r.rank) =
      List.range' 1 (analyzeScores cols f p rf lr).length ∧
    (∀ a ∈ analyzeScores cols f p rf lr, a.rank = 1 →
      ∀ b ∈ analyzeScores cols f p rf lr,
        b.consensus_score ≤ a.consensus_score) ∧
    (∀ a ∈ analyzeScores cols f p rf lr, ∀ b ∈ analyzeScores cols f p rf lr,
      a.rank < b.rank → b.consensus_score ≤ a.consensus_score) := by
  have hdesc : List.Pairwise
      (fun a b : ScoreRow => b.consensus_score ≤ a.consensus_score)
      (sortByConsensusDesc (buildResults cols f p rf lr)) := by
    refine (pairwise_sortByConsensusDesc _
      (pairwise_idx_buildResults cols f p rf lr)).imp ?_
    intro a b h
    rcases h with h | ⟨h, -⟩
    · exact le_of_lt h
    · exact le_of_eq h
  rw [List.pairwise_iff_get] at hdesc
  have hlen : (analyzeScores cols f p rf lr).length = cols.length := by
    rw [analyzeScores, addRank, length_addRankFrom, length_sortByConsensusDesc,
      buildResults_length]
  have hranks : (analyzeScores cols f p rf lr).map (fun r => r.rank) =
      List.range' 1 (analyzeScores cols f p rf lr).length := by
    rw [analyzeScores, addRank, map_rank_addRankFrom, length_addRankFrom]
  have hmono : ∀ a ∈ analyzeScores cols f p rf lr,
      ∀ b ∈ analyzeScores cols f p rf lr,
      a.rank < b.rank → b.consensus_score ≤ a.consensus_score := by
    intro a ha b hb hr
    obtain ⟨ia, hia, ha1, ha2⟩ := (mem_addRankFrom a _ 1).mp ha
    obtain ⟨ib, hib, hb1, hb2⟩ := (mem_addRankFrom b _ 1).mp hb
    have hij : ia < ib := by omega
    have h := hdesc ⟨ia, hia⟩ ⟨ib, hib⟩ (Fin.mk_lt_mk.mpr hij)
    show b.toScoreRow.consensus_score ≤ a.toScoreRow.consensus_score
    rw [ha1, hb1]
    exact h
  refine ⟨hlen, hranks, ?_, hmono⟩
  intro a ha h1 b hb
  obtain ⟨ia, hia, ha1, ha2⟩ := (mem_addRankFrom a _ 1).mp ha
  obtain ⟨ib, hib, hb1, hb2⟩ := (mem_addRankFrom b _ 1).mp hb
  have hia0 : ia = 0 := by omega
  subst hia0
  rcases Nat.eq_zero_or_pos ib with h0 | hpos
  · subst h0
    show b.toScoreRow.consensus_score ≤ a.toScoreRow.consensus_score
    rw [ha1, hb1]
  · have h := hdesc ⟨0, hia⟩ ⟨ib, hib⟩ (Fin.mk_lt_mk.mpr hpos)
    show b.toScoreRow.consensus_score ≤ a.toScoreRow.consensus_score
    rw [ha1, hb1]
    exact h

/-- Witness for `consensus_ranking_is_total_order`: in the concrete
two-marker run the rank-1 row dominates the rank-2 row. -/
theorem consensus_ranking_is_total_order_witness :
    rowTopW ∈ analyzeScores colsW [1, 2] [0, 0] [1, 2] [1, 2] ∧
    rowBotW ∈ analyzeScores colsW [1, 2] [0, 0] [1, 2] [1, 2] ∧
    rowTopW.rank < rowBotW.rank ∧
    rowBotW.consensus_score ≤ rowTopW.consensus_score :=
  ⟨by rw [analyzeScores_eval_two_marker]; exact List.mem_cons_self _ _,
    by rw [analyzeScores_eval_two_marker]
       exact List.mem_cons_of_mem _ (List.mem_cons_self _ _),
    by decide,
    (consensus_ranking_is_total_order colsW [1, 2] [0, 0] [1, 2] [1, 2]).2.2.2
      rowTopW (by rw [analyzeScores_eval_two_marker]; exact List.mem_cons_self _ _)
      rowBotW
      (by rw [analyzeScores_eval_two_marker]
          exact List.mem_cons_of_mem _ (List.mem_cons_self _ _))
      (by decide)⟩

/-- C4: markers tied on consensus score keep their original input
column order in the ranked output, and hence their rank order follows
their input order: pandas implements the single-column descending sort
by reversing the rows and the index array before a stable ascending
argsort and reversing the indexer after, so the descending sort is
stable (for inputs in the regime where numpy's argsort is stable, i.e.
fewer than 16 markers; beyond that the default quicksort kind leaves
the tie order unspecified). -/
theorem consensus_tie_order_preserved (cols : List String) (f p rf lr : List ℚ) :
    ∀ a ∈ analyzeScores cols f p rf lr, ∀ b ∈ analyzeScores cols f p rf lr,
      a.consensus_score = b.consensus_score → a.idx < b.idx → a.rank < b.rank := by
  intro a ha b hb hsc hidx
  obtain ⟨ia, hia, ha1, ha2⟩ := (mem_addRankFrom a _ 1).mp ha
  obtain ⟨ib, hib, hb1, hb2⟩ := (mem_addRankFrom b _ 1).mp hb
  have hpair := pairwise_sortByConsensusDesc _
    (pairwise_idx_buildResults cols f p rf lr)
  rw [List.pairwise_iff_get] at hpair
  have hne : ia ≠ ib := by
    intro h
    subst h
    have heq : a.toScoreRow = b.toScoreRow := by rw [ha1, hb1]
    have := congrArg ScoreRow.idx heq
    omega
  have hlt : ia < ib := by
    rcases Nat.lt_or_ge ib ia with h | h
    · exfalso
      have hLt := hpair ⟨ib, hib⟩ ⟨ia, hia⟩ (Fin.mk_lt_mk.mpr h)
      rw [← ha1, ← hb1] at hLt
      simp only [LtLex] at hLt
      rcases hLt with h2 | ⟨h2, h3⟩
      · exact absurd hsc (ne_of_lt h2)
      · omega
    · omega
  omega

/-- Witness for `consensus_tie_order_preserved` at the tied two-marker
run: both markers tie at consensus 0 and come out in input order `a`,
`b` with ranks 1, 2. -/
theorem consensus_tie_order_preserved_witness :
    rowTieA ∈ analyzeScores colsW [1, 1] [1, 1] [1, 1] [1, 1] ∧
    rowTieB ∈ analyzeScores colsW [1, 1] [1, 1] [1, 1] [1, 1] ∧
    rowTieA.consensus_score = rowTieB.consensus_score ∧
    rowTieA.idx < rowTieB.idx ∧
    rowTieA.rank < rowTieB.rank :=
  ⟨by rw [analyzeScores_eval_tie]; exact List.mem_cons_self _ _,
    by rw [analyzeScores_eval_tie]
       exact List.mem_cons_of_mem _ (List.mem_cons_self _ _),
    by decide, by decide,
    consensus_tie_order_preserved colsW [1, 1] [1, 1] [1, 1] [1, 1]
      rowTieA (by rw [analyzeScores_eval_tie]; exact List.mem_cons_self _ _)
      rowTieB
      (by rw [analyzeScores_eval_tie]
          exact List.mem_cons_of_mem _ (List.mem_cons_self _ _))
      (by decide) (by decide)⟩

/-! ## C6-C7: validation and error behaviour of analyze_features -/

theorem allSomeCol_eq_none (col : List (Option ℚ)) (h : none ∈ col) :
    allSomeCol col = none := by
  induction col with
  | nil => cases h
  | cons c cs ih =>
    cases c with
    | none => rfl
    | some v =>
      rcases List.mem_cons.mp h with h1 | h1
      · exact absurd h1 (by simp)
      · show (allSomeCol cs).map (fun r => v :: r) = none
        rw [ih h1]
        rfl

theorem allSome_eq_none (X : List (List (Option ℚ))) (col : List (Option ℚ))
    (hmem : col ∈ X) (h : allSomeCol col = none) : allSome X = none := by
  induction X with
  | nil => cases hmem
  | cons c cs ih =>
    rcases List.mem_cons.mp hmem with rfl | h1
    · show (match allSomeCol col, allSome cs with
        | some c₀, some cs₀ => some (c₀ :: cs₀)
        | _, _ => none) = none
      rw [h]
    · have h2 : allSome cs = none := ih h1
      show (match allSomeCol c, allSome cs with
        | some c₀, some cs₀ => some (c₀ :: cs₀)
        | _, _ => none) = none
      rw [h2]
      cases allSomeCol c <;> rfl

theorem find?_fst_eq_of_nodup (df : Frame) (c : String × List (Option ℚ))
    (hmem : c ∈ df) (hnodup : (df.map (fun x => x.1)).Nodup) :
    df.find? (fun x => x.1 == c.1) = some c := by
  induction df with
  | nil => cases hmem
  | cons d ds ih =>
    rw [List.map_cons, List.nodup_cons] at hnodup
    rcases List.mem_cons.mp hmem with rfl | h1
    · exact List.find?_cons_of_pos _ (by simp)
    · have hne : ¬(d.1 == c.1) = true := by
        rw [beq_iff_eq]
        intro h
        exact hnodup.1 (by rw [h]; exact List.mem_map_of_mem _ h1)
      rw [@List.find?_cons_of_neg _ (fun x => x.1 == c.1) d ds hne]
      exact ih h1 hnodup.2

/-- C7 counterexample: on a frame without a `cancer_yn` column,
`analyze_features` fails with a `KeyError`, not with the spec's
`MissingColumnError` (which the source never defines or raises). -/
theorem missing_label_not_missing_column_error :
    analyzeFeatures zeroScorer zeroScorer zeroScorer zeroScorer dfNoLabel =
      .error (.keyError "cancer_yn") ∧
    raisedMissingColumn
      (analyzeFeatures zeroScorer zeroScorer zeroScorer zeroScorer dfNoLabel) =
      false :=
  ⟨rfl, rfl⟩

/-- C7 amended: when the label column `cancer_yn` is absent, the label
lookup `df['cancer_yn']` aborts `analyze_features` with a `KeyError`
(there is no explicit missing-column check in the module). -/
theorem missing_label_raises_keyerror
    (sF sP sRF sLR : List (List ℚ) → List ℚ) (df : Frame)
    (h : getCol df "cancer_yn" = none) :
    analyzeFeatures sF sP sRF sLR df = .error (.keyError "cancer_yn") := by
  simp only [analyzeFeatures, h]

/-- Witness for `missing_label_raises_keyerror` at the concrete frame
without a label column. -/
theorem missing_label_raises_keyerror_witness :
    getCol dfNoLabel "cancer_yn" = none ∧
    analyzeFeatures zeroScorer zeroScorer zeroScorer zeroScorer dfNoLabel =
      .error (.keyError "cancer_yn") :=
  ⟨rfl, missing_label_raises_keyerror zeroScorer zeroScorer zeroScorer zeroScorer
    dfNoLabel rfl⟩

/-- C6 counterexample: a wide frame with an all-null marker column makes
`analyze_features` abort with sklearn's NaN `ValueError` at the first
fit, rather than excluding the column and ranking the rest. -/
theorem all_null_marker_crashes :
    analyzeFeatures zeroScorer zeroScorer zeroScorer zeroScorer dfAllNull =
      .error (.valueError "Input X contains NaN") :=
  rfl

/-- C6 amended: whenever some `_log` marker column contains a missing
cell (in particular when it is entirely null) and the label column is
present, `analyze_features` aborts with the NaN `ValueError` raised by
the F-test fit; imputation is disabled in the source. -/
theorem all_null_marker_raises_valueerror
    (sF sP sRF sLR : List (List ℚ) → List ℚ) (df : Frame)
    (hnodup : (df.map (fun c => c.1)).Nodup)
    (hy : getCol df "cancer_yn" ≠ none)
    (hcol : ∃ c ∈ df, strEndsWith c.1 "_log" = true ∧ none ∈ c.2) :
    analyzeFeatures sF sP sRF sLR df =
      .error (.valueError "Input X contains NaN") := by
  obtain ⟨c, hcmem, hext, hnone⟩ := hcol
  obtain ⟨ys, hys⟩ := Option.ne_none_iff_exists.mp hy
  have hfind : df.find? (fun x => x.1 == c.1) = some c :=
    find?_fst_eq_of_nodup df c hcmem hnodup
  have hXnone : allSome
      (((df.map (fun x => x.1)).filter (fun n => strEndsWith n "_log")).map
        (fun n => ((df.find? (fun x => x.1 == n)).map (fun x => x.2)).getD [])) =
      none := by
    apply allSome_eq_none _ c.2
    · have hc1 : c.1 ∈ (df.map (fun x => x.1)).filter (fun n => strEndsWith n "_log") := by
        rw [List.mem_filter]
        exact ⟨List.mem_map_of_mem _ hcmem, hext⟩
      have hval : ((df.find? (fun x => x.1 == c.1)).map (fun x => x.2)).getD [] = c.2 := by
        rw [hfind]
        rfl
      rw [← hval]
      exact List.mem_map_of_mem _ hc1
    · exact allSomeCol_eq_none c.2 hnone
  simp only [analyzeFeatures, ← hys]
  rw [hXnone]

/-- Witness for `all_null_marker_raises_valueerror` at the concrete frame
with an all-null marker column. -/
theorem all_null_marker_raises_valueerror_witness :
    (dfAllNull.map (fun c => c.1)).Nodup ∧
    getCol dfAllNull "cancer_yn" ≠ none ∧
    (∃ c ∈ dfAllNull, strEndsWith c.1 "_log" = true ∧ none ∈ c.2) ∧
    analyzeFeatures zeroScorer zeroScorer zeroScorer zeroScorer dfAllNull =
      .error (.valueError "Input X contains NaN") :=
  ⟨by decide, by decide, by decide,
    all_null_marker_raises_valueerror zeroScorer zeroScorer zeroScorer zeroScorer
      dfAllNull (by decide) (by decide) (by decide)⟩

/-! ## C8: the wide pivot -/

theorem perm_insertSorted {α : Type} (le : α → α → Bool) (x : α) (l : List α) :
    (insertSorted le x l).Perm (x :: l) := by
  induction l with
  | nil => exact List.Perm.refl _
  | cons y ys ih =>
    simp only [insertSorted]
    by_cases h : le y x = true
    · rw [if_pos h]
      exact (List.Perm.cons y ih).trans (List.Perm.swap x y ys)
    · rw [if_neg h]

theorem perm_sortStable_aux {α : Type} (le : α → α → Bool) (xs : List α) :
    ∀ acc, (xs.foldl (fun acc x => insertSorted le x acc) acc).Perm (acc ++ xs) := by
  induction xs with
  | nil => intro acc; simp
  | cons x t ih =>
    intro acc
    rw [List.foldl_cons]
    refine (ih (insertSorted le x acc)).trans ?_
    refine ((perm_insertSorted le x acc).append_right t).trans ?_
    exact List.perm_middle.symm

theorem perm_sortStable {α : Type} (le : α → α → Bool) (l : List α) :
    (sortStable le l).Perm l := by
  have h := perm_sortStable_aux le l []
  simpa using h

theorem mem_sortStable {α : Type} (le : α → α → Bool) (z : α) (l : List α) :
    z ∈ sortStable le l ↔ z ∈ l :=
  (perm_sortStable le l).mem_iff

theorem nodup_sortStable {α : Type} (le : α → α → Bool) (l : List α) :
    (sortStable le l).Nodup ↔ l.Nodup :=
  (perm_sortStable le l).nodup_iff

theorem map_subject_section (l : List String) {B : String → WideRow}
    (hB : ∀ s, (B s).subject = s) :
    (l.map B).map (fun w => w.subject) = l := by
  induction l with
  | nil => rfl
  | cons a t ih => simp [hB, ih]

theorem append_log_inj (a b : String) (h : a ++ "_log" = b ++ "_log") :
    a = b := by
  have h2 : (a ++ "_log").data = (b ++ "_log").data := congrArg String.data h
  rw [String.data_append, String.data_append] at h2
  exact String.ext (List.append_cancel_right h2)

theorem find?_markers_map (markers : List String) (m : String)
    (g : String → Option ℚ) (hnd : markers.Nodup) (hm : m ∈ markers) :
    (markers.map (fun x => (x ++ "_log", g x))).find?
      (fun e => e.1 == m ++ "_log") = some (m ++ "_log", g m) := by
  induction markers with
  | nil => cases hm
  | cons a t ih =>
    rw [List.nodup_cons] at hnd
    rw [List.map_cons]
    rcases List.mem_cons.mp hm with rfl | h1
    · exact List.find?_cons_of_pos _ (by simp)
    · have hne : a ≠ m := by
        rintro rfl
        exact hnd.1 h1
      have hne2 : ¬((fun e : String × Option ℚ => e.1 == m ++ "_log")
          (a ++ "_log", g a) = true) := by
        simp only [beq_iff_eq]
        intro h
        exact hne (append_log_inj a m h)
      rw [@List.find?_cons_of_neg _ (fun e => e.1 == m ++ "_log")
        (a ++ "_log", g a) _ hne2]
      exact ih hnd.2 h1

/-- C8: the wide table has pairwise distinct subjects; its subjects are
exactly the subjects of the input; and for any (subject, marker) pair
present in the input, the row of that subject holds, in column
`<marker>_log`, the `log_mean` of the first input row of that pair
(`aggfunc='first'`). -/
theorem pivot_one_row_per_subject (df : List CondensedRow) :
    ((pivotToWideFormat df).map (fun w => w.subject)).Nodup ∧
    (∀ s, s ∈ (pivotToWideFormat df).map (fun w => w.subject) ↔
      s ∈ df.map (fun r => r.subject)) ∧
    (∀ s m r₀, df.find? (fun r => r.subject == s && r.mdm == m) = some r₀ →
      ∀ w ∈ pivotToWideFormat df, w.subject = s →
        wideCell w (m ++ "_log") = some r₀.log_mean) := by
  have hmapsub : (pivotToWideFormat df).map (fun w => w.subject) =
      sortStable strLE ((df.map (fun r => r.subject)).dedup) := by
    simp only [pivotToWideFormat]
    exact map_subject_section _ (fun s => rfl)
  refine ⟨?_, ?_, ?_⟩
  · rw [hmapsub]
    exact (nodup_sortStable _ _).mpr (List.nodup_dedup _)
  · intro s
    rw [hmapsub, mem_sortStable, List.mem_dedup]
  · intro s m r₀ hfind w hw hws
    have hr₀mem : r₀ ∈ df := List.mem_of_find?_eq_some hfind
    have hr₀p := @List.find?_some _ (fun r => r.subject == s && r.mdm == m) r₀ df hfind
    rw [Bool.and_eq_true, beq_iff_eq, beq_iff_eq] at hr₀p
    have hmmem : m ∈ sortStable strLE ((df.map (fun r => r.mdm)).dedup) := by
      rw [mem_sortStable, List.mem_dedup]
      exact hr₀p.2 ▸ List.mem_map_of_mem _ hr₀mem
    have hmnd : (sortStable strLE ((df.map (fun r => r.mdm)).dedup)).Nodup :=
      (nodup_sortStable _ _).mpr (List.nodup_dedup _)
    simp only [pivotToWideFormat, List.mem_map] at hw
    obtain ⟨s', hs', hbuild⟩ := hw
    have hseq : s' = s := by
      rw [← hws, ← hbuild]
    subst hseq
    rw [← hbuild]
    show (((sortStable strLE ((df.map (fun r => r.mdm)).dedup)).map (fun x =>
        (x ++ "_log",
          (df.find? (fun r => r.subject == s' && r.mdm == x)).map
            (fun r => r.log_mean)))).find?
          (fun e => e.1 == m ++ "_log")).bind (fun e => e.2) =
      some r₀.log_mean
    rw [find?_markers_map _ m _ hmnd hmmem]
    show (df.find? (fun r => r.subject == s' && r.mdm == m)).map
        (fun r => r.log_mean) = some r₀.log_mean
    rw [hfind]
    rfl

/-- Witness for `pivot_one_row_per_subject`: the condensed data of the
spec scenario (patient P1 with markers M1 and M2) pivots to a single row
whose `M1_log` cell holds that patient's `log_mean`. -/
theorem pivot_one_row_per_subject_witness :
    dfPivot.find? (fun r => r.subject == "P1" && r.mdm == "M1") =
      some rowPivotM1 ∧
    widePivot ∈ pivotToWideFormat dfPivot ∧
    widePivot.subject = "P1" ∧
    wideCell widePivot ("M1" ++ "_log") = some rowPivotM1.log_mean :=
  ⟨by decide, by decide, by decide,
    (pivot_one_row_per_subject dfPivot).2.2 "P1" "M1" rowPivotM1 (by decide)
      widePivot (by decide) (by decide)⟩

/-! ## C9: replicate condensation -/

/-- C9: every output row of `summarize_replicates` describes the group of
input rows sharing its (Study_Subject_ID, mdm) key: the group is
non-empty, `log_mean` is the arithmetic mean of the group's `log` values,
`log_sd` is their `ddof=1` sample standard deviation (and is NaN exactly
on singleton groups), `log_cv` equals `log_sd / log_mean * 100` with NaN
propagating, and each metadata column carries the group's first observed
(non-null) value in input row order. -/
theorem summarize_replicates_spec (df : List MergedRow) :
    ∀ row ∈ summarizeReplicates df,
      ∃ g : List MergedRow,
        g = df.filter (fun r => r.subject == row.subject && r.mdm == row.mdm) ∧
        g ≠ [] ∧
        row.log_mean * g.length = (g.map (fun r => r.log)).sum ∧
        (row.log_sd = none ↔ g.length < 2) ∧
        (∀ s, row.log_sd = some s → 0 ≤ s ∧
          s ^ 2 * ((g.length : ℝ) - 1) =
            ((g.map (fun r => r.log)).map
              (fun x => (x - row.log_mean) ^ 2)).sum) ∧
        row.log_cv = row.log_sd.map (fun s => s / row.log_mean * 100) ∧
        row.cancer_type = g.findSome? (fun r => r.cancer_type) ∧
        row.cancer_yn = g.findSome? (fun r => r.cancer_yn) ∧
        row.stage = g.findSome? (fun r => r.stage) ∧
        row.age = g.findSome? (fun r => r.age) ∧
        row.sex = g.findSome? (fun r => r.sex) := by
  intro row hrow
  simp only [summarizeReplicates, List.mem_map] at hrow
  obtain ⟨k, hk, hbuild⟩ := hrow
  rw [mem_sortStable, List.mem_dedup, List.mem_map] at hk
  obtain ⟨r1, hr1, hkey⟩ := hk
  subst hbuild
  simp only [condenseGroup]
  have hgne : df.filter (fun r => r.subject == k.1 && r.mdm == k.2) ≠ [] := by
    apply List.ne_nil_of_mem
    apply List.mem_filter.mpr
    refine ⟨hr1, ?_⟩
    rw [← hkey]
    simp
  refine ⟨df.filter (fun r => r.subject == k.1 && r.mdm == k.2), rfl,
    hgne, ?_, ?_, ?_, by trivial, by trivial, by trivial, by trivial,
    by trivial, by trivial⟩
  · have hlen : (df.filter (fun r => r.subject == k.1 && r.mdm == k.2)).length ≠ 0 := by
      have := List.length_pos.mpr hgne
      omega
    rw [sampleMean, List.length_map]
    exact div_mul_cancel₀ _ (Nat.cast_ne_zero.mpr hlen)
  · by_cases h2 : 2 ≤ (df.filter (fun r => r.subject == k.1 && r.mdm == k.2)).length
    · rw [if_pos h2]
      exact iff_of_false (by simp) (by omega)
    · rw [if_neg h2]
      exact iff_of_true rfl (by omega)
  · by_cases h2 : 2 ≤ (df.filter (fun r => r.subject == k.1 && r.mdm == k.2)).length
    · rw [if_pos h2]
      intro s hs
      rw [Option.some_inj] at hs
      subst hs
      constructor
      · exact Real.sqrt_nonneg _
      · have harg : (0 : ℝ) ≤
            (((df.filter (fun r => r.subject == k.1 && r.mdm == k.2)).map
                (fun r => r.log)).map (fun x =>
              (x - sampleMean ((df.filter (fun r =>
                r.subject == k.1 && r.mdm == k.2)).map (fun r => r.log))) ^ 2)).sum /
            ((((df.filter (fun r => r.subject == k.1 && r.mdm == k.2)).map
                (fun r => r.log)).length : ℝ) - 1) := by
          apply div_nonneg
          · apply List.sum_nonneg
            intro x hx
            rw [List.mem_map] at hx
            obtain ⟨y, -, rfl⟩ := hx
            exact sq_nonneg _
          · rw [List.length_map]
            have : (2 : ℝ) ≤ (df.filter (fun r =>
                r.subject == k.1 && r.mdm == k.2)).length := by
              exact_mod_cast h2
            linarith
        rw [sampleStd, Real.sq_sqrt harg, List.length_map]
        apply div_mul_cancel₀
        have : (2 : ℝ) ≤ (df.filter (fun r =>
            r.subject == k.1 && r.mdm == k.2)).length := by
          exact_mod_cast h2
        intro hzero
        rw [sub_eq_zero] at hzero
        rw [hzero] at this
        norm_num at this
    · rw [if_neg h2]
      intro s hs
      exact absurd hs (by simp)

/-- Witness for `summarize_replicates_spec` at a one-row input: the
single (P1, M1) replicate condenses to its own value with NaN `log_sd`
and `log_cv`. -/
theorem summarize_replicates_spec_witness :
    rowReps ∈ summarizeReplicates dfReps ∧
    (∃ g : List MergedRow,
      g = dfReps.filter (fun r =>
        r.subject == rowReps.subject && r.mdm == rowReps.mdm) ∧
      g ≠ [] ∧
      rowReps.log_mean * g.length = (g.map (fun r => r.log)).sum ∧
      (rowReps.log_sd = none ↔ g.length < 2) ∧
      (∀ s, rowReps.log_sd = some s → 0 ≤ s ∧
        s ^ 2 * ((g.length : ℝ) - 1) =
          ((g.map (fun r => r.log)).map
            (fun x => (x - rowReps.log_mean) ^ 2)).sum) ∧
      rowReps.log_cv = rowReps.log_sd.map (fun s => s / rowReps.log_mean * 100) ∧
      rowReps.cancer_type = g.findSome? (fun r => r.cancer_type) ∧
      rowReps.cancer_yn = g.findSome? (fun r => r.cancer_yn) ∧
      rowReps.stage = g.findSome? (fun r => r.stage) ∧
      rowReps.age = g.findSome? (fun r => r.age) ∧
      rowReps.sex = g.findSome? (fun r => r.sex)) := by
  have hmem : rowReps ∈ summarizeReplicates dfReps := by
    rw [show summarizeReplicates dfReps = [rowReps] from rfl]
    exact List.mem_cons_self _ _
  exact ⟨hmem, summarize_replicates_spec dfReps rowReps hmem⟩

/-! ## C10: precision statistics -/

/-- C10: every row kept by `compute_precision_stats` has strictly
positive mean, more than one observation, a present and strictly positive
standard deviation, and hence a present, finite and strictly positive
`cv_percent`; combinations with zero mean, zero or undefined standard
deviation, or a single observation never appear. -/
theorem precision_stats_rows_positive (df : List AssayRow) :
    ∀ row ∈ computePrecisionStats df,
      0 < row.mean_value ∧ 1 < row.n_obs ∧
      (∃ s, row.std_value = some s ∧ 0 < s) ∧
      (∃ c, row.cv_percent = some c ∧ 0 < c) := by
  intro row hrow
  rw [computePrecisionStats, List.mem_filter] at hrow
  obtain ⟨hmem, hcond⟩ := hrow
  rw [Bool.and_eq_true, Bool.and_eq_true] at hcond
  obtain ⟨h1, h2, h3⟩ := hcond
  rw [decide_eq_true_eq] at h1 h3
  simp only [List.mem_map] at hmem
  obtain ⟨k, hk, hbuild⟩ := hmem
  subst hbuild
  simp only [precisionGroup] at h1 h2 h3 ⊢
  refine ⟨h1, h3, ?_⟩
  by_cases hlen : 2 ≤ (df.filter (fun r =>
      r.donor == k.1 && r.mutid == k.2.1 && r.group == k.2.2)).length
  · rw [if_pos hlen] at h2 ⊢
    rw [decide_eq_true_eq] at h2
    refine ⟨⟨_, rfl, h2⟩, ⟨_, rfl, ?_⟩⟩
    exact mul_pos (div_pos h2 h1) (by norm_num)
  · rw [if_neg hlen] at h2
    exact absurd h2 (by simp)

/-- Witness for `precision_stats_rows_positive`: three observations
2, 4, 6 of one donor-variant-group combination survive the filter with
mean 4 and standard deviation 2. -/
theorem precision_stats_rows_positive_witness :
    rowAssay ∈ computePrecisionStats dfAssay ∧
    (0 < rowAssay.mean_value ∧ 1 < rowAssay.n_obs ∧
      (∃ s, rowAssay.std_value = some s ∧ 0 < s) ∧
      (∃ c, rowAssay.cv_percent = some c ∧ 0 < c)) := by
  have hmean : (0 : ℝ) < sampleMean [(2 : ℝ), 4, 6] := by
    norm_num [sampleMean]
  have hstd : (0 : ℝ) < sampleStd [(2 : ℝ), 4, 6] := by
    rw [sampleStd]
    apply Real.sqrt_pos.mpr
    norm_num [sampleMean]
  have hcond : (decide (0 < rowAssay.mean_value) &&
      ((match rowAssay.std_value with
        | some s => decide (0 < s)
        | none => false) &&
        decide (1 < rowAssay.n_obs))) = true := by
    simp only [rowAssay, Bool.and_eq_true, decide_eq_true_eq]
    exact ⟨hmean, hstd, by norm_num⟩
  have hmem : rowAssay ∈ computePrecisionStats dfAssay := by
    rw [computePrecisionStats]
    apply List.mem_filter.mpr
    constructor
    · rw [show (sortStable tripleLE
          ((dfAssay.map (fun r => (r.donor, r.mutid, r.group))).dedup)).map
            (precisionGroup dfAssay) = [rowAssay] from rfl]
      exact List.mem_cons_self _ _
    · exact hcond
  exact ⟨hmem, precision_stats_rows_positive dfAssay rowAssay hmem⟩

end StrandLabs
